import Mathlib

set_option maxHeartbeats 1600000

/-!
Formal model of the graph-analysis route handlers of the
infrastructure-weaver backend (`src/backend/routes.js`).

The four handlers run Cypher queries against a `cityinfrastructure`
graph of `InfrastructureUnit` nodes joined by `DEPENDS_ON` edges.  We
embed the graph as an explicit snapshot (unit list plus edge list) and
each query as a pure function over it:

* the variable-length pattern `(dependent)-[:DEPENDS_ON*]->(n)` matches
  every node with a directed path of length at least one to `n`; since a
  minimal walk repeats no relationship, this is plain reachability, and
  we compute it with a breadth-first traversal over the reverse
  adjacency that also records each node's minimal positive distance
  (Cypher's minimal `LENGTH(path)` after `ORDER BY depth ASC` with
  `RETURN DISTINCT`);
* `ORDER BY c DESC LIMIT k` becomes a stable descending insertion sort
  followed by `List.take k`;
* the HTTP error branches (400, 404, 500) become a typed error sum.
-/

structure InfrastructureUnit where
  id : Nat
  name : String
  type : String
  location : String
  department : String
  status : String
deriving DecidableEq, Repr

structure Edge where
  fromId : Nat
  toId : Nat
deriving DecidableEq, Repr

structure Snapshot where
  units : List InfrastructureUnit
  edges : List Edge
deriving DecidableEq, Repr

/-- Character-level embedding of `locations.split(',')`: accumulate the
current segment and cut at every comma, so an empty string yields the
single empty segment, as in JavaScript. -/
def splitCommaChars : List Char → List Char → List String
  | [], acc => [String.mk acc.reverse]
  | c :: cs, acc =>
    if c = ',' then String.mk acc.reverse :: splitCommaChars cs []
    else splitCommaChars cs (c :: acc)

/-- The handlers' `locations.split(',')`. -/
def splitComma (s : String) : List String :=
  splitCommaChars s.data []

/-- Direct dependents of the node `id`: sources of `DEPENDS_ON` edges whose
target is `id`, in edge-list order (the deterministic neighbor-iteration
order of the embedded reachability engine). -/
def directDependents (s : Snapshot) (id : Nat) : List Nat :=
  (s.edges.filter (fun e => e.toId == id)).map (fun e => e.fromId)

/-- Append-free deduplication: keep the elements of the second list that are
not in `seen`, first occurrence first. -/
def dedupNew {α : Type} [DecidableEq α] (seen : List α) : List α → List α
  | [] => []
  | x :: xs => if x ∈ seen then dedupNew seen xs else x :: dedupNew (x :: seen) xs

/-- One breadth-first step: the direct dependents of the frontier that were
not seen before, first discovery first. -/
def bfsNext (s : Snapshot) (frontier visited : List Nat) : List Nat :=
  dedupNew visited (frontier.flatMap (fun i => directDependents s i))

/-- Breadth-first levels of the reverse `DEPENDS_ON` adjacency: each produced
level holds the nodes first discovered at that distance.  An empty next
level stops the traversal; `fuel` bounds the recursion. -/
def bfsLevels (s : Snapshot) : Nat → List Nat → List Nat → List (List Nat)
  | 0, _, _ => []
  | fuel + 1, frontier, visited =>
    if (bfsNext s frontier visited).isEmpty then []
    else
      bfsNext s frontier visited ::
        bfsLevels s fuel (bfsNext s frontier visited) (visited ++ bfsNext s frontier visited)

/-- Pair every node of every level with its level's depth, starting at `d`. -/
def attachDepths : Nat → List (List Nat) → List (Nat × Nat)
  | _, [] => []
  | d, lvl :: rest => lvl.map (fun i => (i, d)) ++ attachDepths (d + 1) rest

/-- All nodes matching `(dependent)-[:DEPENDS_ON*]->(root)`: every node with
a directed `DEPENDS_ON` path of length at least one to `rootId`, paired with
its minimal path length, in breadth-first discovery order.  The fuel
`s.edges.length + 1` always suffices: levels are nonempty, pairwise
disjoint sublists of the edge sources. -/
def transitiveDependents (s : Snapshot) (rootId : Nat) : List (Nat × Nat) :=
  attachDepths 1 (bfsLevels s (s.edges.length + 1) [rootId] [])

/-- The `COUNT(DISTINCT dependent)` of the root-cause and region queries. -/
def dependentCount (s : Snapshot) (rootId : Nat) : Nat :=
  (transitiveDependents s rootId).length

/-- Stable insertion of a pair into a list sorted descending by the `Nat`
component: the new element goes before the first old element it ties with
or beats, so earlier-listed elements win ties. -/
def insertByVal {α : Type} (x : α × Nat) : List (α × Nat) → List (α × Nat)
  | [] => [x]
  | y :: ys => if y.2 ≤ x.2 then x :: y :: ys else y :: insertByVal x ys

/-- Stable descending sort by the `Nat` component, the embedding of
`ORDER BY count DESC` over the store's enumeration order. -/
def orderByDesc {α : Type} : List (α × Nat) → List (α × Nat)
  | [] => []
  | x :: xs => insertByVal x (orderByDesc xs)

/-- Candidate set of the root-cause query:
`WHERE root.type = $type AND root.location IN $locations`. -/
def candidates (s : Snapshot) (t : String) (locs : List String) : List InfrastructureUnit :=
  s.units.filter (fun u => u.type == t && locs.contains u.location)

/-- Node lookup by id, used to map discovered node ids back to units. -/
def lookupUnit (s : Snapshot) (i : Nat) : Option InfrastructureUnit :=
  s.units.find? (fun u => u.id == i)

/-- The impact-chain query of the root-cause handler: dependents ordered by
ascending path depth, `RETURN DISTINCT dependent LIMIT 10`, resolved back
to their units. -/
def impactChainOf (s : Snapshot) (rootId : Nat) : List InfrastructureUnit :=
  ((transitiveDependents s rootId).take 10).filterMap (fun p => lookupUnit s p.1)

/-- Typed rendering of the handlers' HTTP error branches.  `missingParam` is
the 400 of `/root-cause`, `notFound` its 404 (carrying the requested type
and the attempted location list), `internalError` the catch-all 500.
`emptyLocationSet` is modelled from the spec: section 7 names an
`EmptyLocationSetError` for an empty locations parameter; no handler in
`src/backend/routes.js` produces it, and it exists here only so that
statements about it can be written. -/
inductive QueryError where
  | missingParam : QueryError
  | notFound (reqType : String) (locations : List String) : QueryError
  | emptyLocationSet (locations : List String) : QueryError
  | internalError : QueryError
deriving DecidableEq, Repr

structure RootCauseResult where
  rootCause : InfrastructureUnit
  impactChain : List InfrastructureUnit
  affectedServices : Nat
  criticalPath : List String
deriving DecidableEq, Repr

structure RegionAnalysisResult where
  region : Option String
  criticalUnits : List (InfrastructureUnit × Nat)
  vulnerabilities : List String
  totalUnits : Nat
deriving DecidableEq, Repr

/-- The `GET /root-cause` handler.  `!type || !locations` rejects a missing
or empty parameter with the 400; the first query ranks the candidates by
`dependentCount` descending and keeps one; an empty record set is the 404;
otherwise the impact chain and the response body are built. -/
def selectRootCause (s : Snapshot) (reqType locs : Option String) :
    Except QueryError RootCauseResult :=
  match reqType, locs with
  | some t, some locStr =>
    if t = "" ∨ locStr = "" then Except.error QueryError.missingParam
    else
      match orderByDesc ((candidates s t (splitComma locStr)).map
          (fun u => (u, dependentCount s u.id))) with
      | [] => Except.error (QueryError.notFound t (splitComma locStr))
      | (root, affectedCount) :: _ =>
        Except.ok
          { rootCause := root
            impactChain := impactChainOf s root.id
            affectedServices := affectedCount
            criticalPath := (impactChainOf s root.id).map (fun u => u.name) }
  | _, _ => Except.error QueryError.missingParam

/-- Units whose location is in the requested list:
`WHERE n.location IN $locations`. -/
def regionUnits (s : Snapshot) (locs : List String) : List InfrastructureUnit :=
  s.units.filter (fun u => locs.contains u.location)

/-- The first query of `/analyze-region`: location-filtered units with a
positive transitive dependent count, `ORDER BY dependentCount DESC LIMIT 5`. -/
def criticalUnitsOf (s : Snapshot) (locs : List String) : List (InfrastructureUnit × Nat) :=
  (orderByDesc (((regionUnits s locs).map (fun u => (u, dependentCount s u.id))).filter
    (fun p => decide (0 < p.2)))).take 5

/-- The `GET /analyze-region` handler.  A missing locations parameter makes
`locations.split(',')` throw, caught as the 500; an empty string splits to
the single empty-string location and the analysis proceeds. -/
def analyzeRegion (s : Snapshot) (region locs : Option String) :
    Except QueryError RegionAnalysisResult :=
  match locs with
  | none => Except.error QueryError.internalError
  | some locStr =>
    let locationArray := splitComma locStr
    let criticalUnits := criticalUnitsOf s locationArray
    Except.ok
      { region := region
        criticalUnits := criticalUnits
        vulnerabilities :=
          match criticalUnits with
          | [] => []
          | top :: _ =>
            [toString criticalUnits.length ++ " critical infrastructure units identified"
            , r"Single point of failure risk in " ++ top.1.name]
        totalUnits := (regionUnits s locationArray).length }

/-- Row count of `MATCH (n:InfrastructureUnit)<-[:DEPENDS_ON]-(x)` grouped by
`n.name`: the incoming `DEPENDS_ON` edges of the units bearing that name. -/
def nameIncomingCount (s : Snapshot) (nm : String) : Nat :=
  (s.edges.filter (fun e => s.units.any (fun u => u.name == nm && u.id == e.toId))).length

/-- The `GET /critical` handler: the plain (non-optional) `MATCH` keeps only
names with at least one incoming edge, grouped by `n.name` with `COUNT(x)`,
`ORDER BY dependencyCount DESC` with no limit. -/
def rankGlobal (s : Snapshot) : List (String × Nat) :=
  orderByDesc ((dedupNew [] (s.units.map (fun u => u.name))).filterMap
    (fun nm =>
      let c := nameIncomingCount s nm
      if 0 < c then some (nm, c) else none))

/-- Snapshot well-formedness: distinct unit ids, and every edge endpoint
names an existing unit (the spec's `InvalidGraphError` contract at
snapshot construction). -/
def WFSnapshot (s : Snapshot) : Prop :=
  (s.units.map (fun u => u.id)).Nodup ∧
    ∀ e ∈ s.edges, (∃ u ∈ s.units, u.id = e.fromId) ∧ ∃ u ∈ s.units, u.id = e.toId

instance (s : Snapshot) : Decidable (WFSnapshot s) := by
  unfold WFSnapshot; infer_instance

/-- Directed `DEPENDS_ON` walks: `DepWalk s x y n` holds when a walk of
length `n` leads from `x` to `y` along the edges of `s`. -/
inductive DepWalk (s : Snapshot) : Nat → Nat → Nat → Prop where
  | refl (x : Nat) : DepWalk s x x 0
  | cons {x y z n : Nat} :
      (⟨x, y⟩ : Edge) ∈ s.edges → DepWalk s y z n → DepWalk s x z (n + 1)

/-- Node `x` matches `(x)-[:DEPENDS_ON*]->(r)` with minimal path length `d`:
there is a walk of positive length `d` from `x` to `r` and no shorter
positive one. -/
def IsMinPosDist (s : Snapshot) (r x d : Nat) : Prop :=
  1 ≤ d ∧ DepWalk s x r d ∧ ∀ j, 1 ≤ j → DepWalk s x r j → d ≤ j

/-- Each level in turn holds exactly the nodes whose minimal positive
distance to `r` is the next depth. -/
def LevelsSpec (s : Snapshot) (r : Nat) : Nat → List (List Nat) → Prop
  | _, [] => True
  | t, lvl :: rest =>
    (∀ x, x ∈ lvl ↔ IsMinPosDist s r x (t + 1)) ∧ LevelsSpec s r (t + 1) rest

/-- After the listed levels no node sits at the next minimal distance. -/
def LevelsClosed (s : Snapshot) (r : Nat) : Nat → List (List Nat) → Prop
  | t, [] => ∀ x, ¬ IsMinPosDist s r x (t + 1)
  | t, _ :: rest => LevelsClosed s r (t + 1) rest

/-! ### Concrete snapshots used by the witnesses and counterexamples -/

/-- Power plant with two direct dependents, one of them with a further
dependent; a water pump in another location. -/
def exPlantA : InfrastructureUnit :=
  { id := 1, name := "PlantA", type := "power", location := "north"
  , department := "energy", status := "operational" }

def exSubB : InfrastructureUnit :=
  { id := 2, name := "SubB", type := "power", location := "north"
  , department := "energy", status := "operational" }

def exTelC : InfrastructureUnit :=
  { id := 3, name := "TelC", type := "telecom", location := "north"
  , department := "comms", status := "operational" }

def exPumpD : InfrastructureUnit :=
  { id := 4, name := "PumpD", type := "water", location := "west"
  , department := "water", status := "operational" }

/-- Snapshot with edges TelC -> PlantA, SubB -> PlantA, PumpD -> SubB. -/
def exMain : Snapshot :=
  { units := [exPlantA, exSubB, exTelC, exPumpD]
  , edges := [{ fromId := 3, toId := 1 }, { fromId := 2, toId := 1 }, { fromId := 4, toId := 2 }] }

/-- Two tied power candidates listed with the larger id first. -/
def exBeta : InfrastructureUnit :=
  { id := 2, name := "Beta", type := "power", location := "north"
  , department := "energy", status := "operational" }

def exAlpha : InfrastructureUnit :=
  { id := 1, name := "Alpha", type := "power", location := "north"
  , department := "energy", status := "operational" }

/-- Snapshot with no edges: both candidates have dependent count 0. -/
def exTie : Snapshot := { units := [exBeta, exAlpha], edges := [] }

/-- Three-cycle CycA -> CycB -> CycC -> CycA with an external CycD -> CycA. -/
def exCycle : Snapshot :=
  { units :=
      [ { id := 1, name := "CycA", type := "power", location := "loop"
        , department := "energy", status := "operational" }
      , { id := 2, name := "CycB", type := "power", location := "loop"
        , department := "energy", status := "operational" }
      , { id := 3, name := "CycC", type := "power", location := "loop"
        , department := "energy", status := "operational" }
      , { id := 4, name := "CycD", type := "power", location := "loop"
        , department := "energy", status := "operational" } ]
  , edges := [{ fromId := 1, toId := 2 }, { fromId := 2, toId := 3 }
             , { fromId := 3, toId := 1 }, { fromId := 4, toId := 1 }] }

/-- A single isolated unit with no edges at all. -/
def exIso : Snapshot :=
  { units :=
      [ { id := 1, name := "Solo", type := "power", location := "north"
        , department := "energy", status := "operational" } ]
  , edges := [] }

/-- Two distinct units sharing the name DupX — ids 1 and 2, with two and
one incoming edges respectively — plus their three edge sources. -/
def exDup : Snapshot :=
  { units :=
      [ { id := 1, name := "DupX", type := "power", location := "north"
        , department := "energy", status := "operational" }
      , { id := 2, name := "DupX", type := "power", location := "south"
        , department := "energy", status := "operational" }
      , { id := 3, name := "SrcA", type := "telecom", location := "north"
        , department := "comms", status := "operational" }
      , { id := 4, name := "SrcB", type := "telecom", location := "north"
        , department := "comms", status := "operational" }
      , { id := 5, name := "SrcC", type := "telecom", location := "south"
        , department := "comms", status := "operational" } ]
  , edges := [{ fromId := 3, toId := 1 }, { fromId := 4, toId := 1 }
             , { fromId := 5, toId := 2 }] }

/-- The `/root-cause` response of `exMain` for power in the north. -/
def exMainRes : RootCauseResult :=
  { rootCause := exPlantA
  , impactChain := [exTelC, exSubB, exPumpD]
  , affectedServices := 3
  , criticalPath := [r"TelC", r"SubB", r"PumpD"] }

/-- The `/root-cause` response of `exTie`: the first-listed tied candidate. -/
def exTieRes : RootCauseResult :=
  { rootCause := exBeta, impactChain := [], affectedServices := 0, criticalPath := [] }

/-- The `/analyze-region` response of `exMain` for the north locations. -/
def exRegionRes : RegionAnalysisResult :=
  { region := some (r"North")
  , criticalUnits := [(exPlantA, 3), (exSubB, 1)]
  , vulnerabilities :=
      [r"2 critical infrastructure units identified"
      , r"Single point of failure risk in PlantA"]
  , totalUnits := 3 }

/-- The `/analyze-region` response of `exMain` for an empty locations string. -/
def exEmptyLocRes : RegionAnalysisResult :=
  { region := some (r"North"), criticalUnits := [], vulnerabilities := [], totalUnits := 0 }

/-! ### Basic lemmas about the traversal helpers -/

theorem mem_dedupNew {α : Type} [DecidableEq α] (x : α) :
    ∀ (l seen : List α), x ∈ dedupNew seen l ↔ x ∈ l ∧ x ∉ seen := by
  intro l
  induction l with
  | nil => intro seen; simp [dedupNew]
  | cons y ys ih =>
    intro seen
    by_cases hy : y ∈ seen
    · simp only [dedupNew, if_pos hy, ih, List.mem_cons]
      constructor
      · rintro ⟨h1, h2⟩
        exact ⟨Or.inr h1, h2⟩
      · rintro ⟨h1 | h1, h2⟩
        · exact absurd (h1 ▸ hy) h2
        · exact ⟨h1, h2⟩
    · simp only [dedupNew, if_neg hy, List.mem_cons, ih]
      constructor
      · rintro (rfl | ⟨h1, h2⟩)
        · exact ⟨Or.inl rfl, hy⟩
        · exact ⟨Or.inr h1, fun hx => h2 (Or.inr hx)⟩
      · rintro ⟨h1 | h1, h2⟩
        · exact Or.inl h1
        · by_cases hxy : x = y
          · exact Or.inl hxy
          · exact Or.inr ⟨h1, by simp [List.mem_cons, hxy, h2]⟩

theorem nodup_dedupNew {α : Type} [DecidableEq α] :
    ∀ (l seen : List α), (dedupNew seen l).Nodup := by
  intro l
  induction l with
  | nil => intro seen; simp [dedupNew]
  | cons y ys ih =>
    intro seen
    by_cases hy : y ∈ seen
    · simpa only [dedupNew, if_pos hy] using ih seen
    · simp only [dedupNew, if_neg hy, List.nodup_cons]
      refine ⟨fun hmem => ?_, ih (y :: seen)⟩
      exact ((mem_dedupNew y ys (y :: seen)).mp hmem).2 (List.mem_cons_self y seen)

theorem mem_directDependents {s : Snapshot} {x i : Nat} :
    x ∈ directDependents s i ↔ (⟨x, i⟩ : Edge) ∈ s.edges := by
  simp only [directDependents, List.mem_map, List.mem_filter, beq_iff_eq]
  constructor
  · rintro ⟨e, ⟨he, ht⟩, rfl⟩
    cases e
    simp only at ht ⊢
    rw [ht] at he
    exact he
  · intro h
    exact ⟨⟨x, i⟩, ⟨h, rfl⟩, rfl⟩

theorem depWalk_zero {s : Snapshot} {x y : Nat} (h : DepWalk s x y 0) : x = y := by
  cases h; rfl

theorem depWalk_succ {s : Snapshot} {x z n : Nat} (h : DepWalk s x z (n + 1)) :
    ∃ y, (⟨x, y⟩ : Edge) ∈ s.edges ∧ DepWalk s y z n := by
  cases h with
  | cons he hw => exact ⟨_, he, hw⟩

theorem exists_minPosDist {s : Snapshot} {r x : Nat} :
    ∀ j, 1 ≤ j → DepWalk s x r j → ∃ d, IsMinPosDist s r x d ∧ d ≤ j := by
  intro j
  induction j using Nat.strong_induction_on with
  | _ j ih =>
    intro h1 hw
    by_cases hmin : ∀ j', 1 ≤ j' → DepWalk s x r j' → j ≤ j'
    · exact ⟨j, ⟨h1, hw, hmin⟩, le_refl j⟩
    · push_neg at hmin
      obtain ⟨j', hj'1, hj'w, hj'lt⟩ := hmin
      obtain ⟨d, hd, hdle⟩ := ih j' hj'lt hj'1 hj'w
      exact ⟨d, hd, le_trans hdle (le_of_lt hj'lt)⟩

theorem minPosDist_pred {s : Snapshot} {r x d : Nat}
    (hd : IsMinPosDist s r x (d + 2)) : ∃ y, IsMinPosDist s r y (d + 1) := by
  obtain ⟨-, hw, hmin⟩ := hd
  obtain ⟨y, he, hwy⟩ := depWalk_succ hw
  obtain ⟨m, hm, hmle⟩ := exists_minPosDist (d + 1) (by omega) hwy
  have hlow : d + 2 ≤ m + 1 := hmin (m + 1) (by omega) (DepWalk.cons he hm.2.1)
  have heq : m = d + 1 := by omega
  exact ⟨y, heq ▸ hm⟩

theorem mem_bfsNext {s : Snapshot} {frontier visited : List Nat} {x : Nat} :
    x ∈ bfsNext s frontier visited ↔
      (∃ i ∈ frontier, (⟨x, i⟩ : Edge) ∈ s.edges) ∧ x ∉ visited := by
  simp only [bfsNext, mem_dedupNew, List.mem_flatMap, mem_directDependents]

/-- The breadth-first step computes exactly the nodes whose minimal positive
distance to `r` is `t + 1`, given a frontier of all nodes at distance `t`
and a visited set of all nodes within distance `t`. -/
theorem bfsNext_iff_minPosDist {s : Snapshot} {r t : Nat} {frontier visited : List Nat}
    (hfs : ∀ x ∈ frontier, DepWalk s x r t)
    (hfc : ∀ x, IsMinPosDist s r x t → x ∈ frontier)
    (hvc : ∀ x j, 1 ≤ j → j ≤ t → DepWalk s x r j → x ∈ visited)
    (hvs : ∀ x ∈ visited, ∃ j, 1 ≤ j ∧ j ≤ t ∧ DepWalk s x r j)
    (hroot : t = 0 → r ∈ frontier) :
    ∀ x, x ∈ bfsNext s frontier visited ↔ IsMinPosDist s r x (t + 1) := by
  intro x
  rw [mem_bfsNext]
  constructor
  · rintro ⟨⟨i, hi, he⟩, hnv⟩
    refine ⟨by omega, DepWalk.cons he (hfs i hi), ?_⟩
    intro j hj1 hjw
    by_contra hlt
    push_neg at hlt
    exact hnv (hvc x j hj1 (by omega) hjw)
  · rintro ⟨h1, hw, hmin⟩
    obtain ⟨y, he, hwy⟩ := depWalk_succ hw
    constructor
    · refine ⟨y, ?_, he⟩
      cases t with
      | zero =>
        have hyr : y = r := depWalk_zero hwy
        exact hyr ▸ hroot rfl
      | succ t' =>
        obtain ⟨m, hm, hmle⟩ := exists_minPosDist (t' + 1) (by omega) hwy
        have hlow : t' + 2 ≤ m + 1 := hmin (m + 1) (by omega) (DepWalk.cons he hm.2.1)
        have heq : m = t' + 1 := by omega
        exact hfc y (heq ▸ hm)
    · intro hxv
      obtain ⟨j, hj1, hjt, hjw⟩ := hvs x hxv
      have := hmin j hj1 hjw
      omega

/-- Main invariant of the traversal: starting from a frontier of all nodes
at distance `t` and a visited set of all nodes within distance `t`, the
produced levels hold exactly the nodes at the successive minimal
distances, every level is nonempty, the flattened output repeats no node,
avoids the visited set and draws only from edge sources; and when the fuel
is not exhausted the traversal is complete. -/
theorem bfsLevels_spec (s : Snapshot) (r : Nat) :
    ∀ (fuel : Nat) (t : Nat) (frontier visited : List Nat),
      (∀ x ∈ frontier, DepWalk s x r t) →
      (∀ x, IsMinPosDist s r x t → x ∈ frontier) →
      (∀ x j, 1 ≤ j → j ≤ t → DepWalk s x r j → x ∈ visited) →
      (∀ x ∈ visited, ∃ j, 1 ≤ j ∧ j ≤ t ∧ DepWalk s x r j) →
      (t = 0 → r ∈ frontier) →
      visited.Nodup →
      LevelsSpec s r t (bfsLevels s fuel frontier visited) ∧
        ((bfsLevels s fuel frontier visited).length < fuel →
          LevelsClosed s r t (bfsLevels s fuel frontier visited)) ∧
        (bfsLevels s fuel frontier visited).flatten.Nodup ∧
        (∀ x ∈ (bfsLevels s fuel frontier visited).flatten, x ∉ visited) ∧
        (∀ lvl ∈ bfsLevels s fuel frontier visited, lvl ≠ []) ∧
        (∀ x ∈ (bfsLevels s fuel frontier visited).flatten,
          x ∈ s.edges.map (fun e => e.fromId)) := by
  intro fuel
  induction fuel with
  | zero =>
    intro t frontier visited _ _ _ _ _ _
    refine ⟨trivial, ?_, ?_, ?_, ?_, ?_⟩ <;> simp [bfsLevels, LevelsSpec]
  | succ fuel ih =>
    intro t frontier visited hfs hfc hvc hvs hroot hnod
    have hstep := bfsNext_iff_minPosDist hfs hfc hvc hvs hroot
    by_cases hempty : (bfsNext s frontier visited).isEmpty
    · have hnil : bfsLevels s (fuel + 1) frontier visited = [] := by
        simp [bfsLevels, hempty]
      rw [hnil]
      refine ⟨trivial, ?_, by simp, by simp, by simp, by simp⟩
      intro _
      intro x hx
      have hmem := (hstep x).mpr hx
      rw [List.isEmpty_iff] at hempty
      rw [hempty] at hmem
      exact (List.not_mem_nil x) hmem
    · have hcons : bfsLevels s (fuel + 1) frontier visited =
          bfsNext s frontier visited ::
            bfsLevels s fuel (bfsNext s frontier visited)
              (visited ++ bfsNext s frontier visited) := by
        simp [bfsLevels, hempty]
      have hnextnodup : (bfsNext s frontier visited).Nodup := nodup_dedupNew _ _
      have hnextfresh : ∀ x ∈ bfsNext s frontier visited, x ∉ visited := by
        intro x hx
        exact (mem_bfsNext.mp hx).2
      have hfromIds : ∀ x ∈ bfsNext s frontier visited,
          x ∈ s.edges.map (fun e => e.fromId) := by
        intro x hx
        obtain ⟨⟨i, _, he⟩, -⟩ := mem_bfsNext.mp hx
        exact List.mem_map.mpr ⟨⟨x, i⟩, he, rfl⟩
      have hrec := ih (t + 1) (bfsNext s frontier visited)
        (visited ++ bfsNext s frontier visited)
        (fun x hx => ((hstep x).mp hx).2.1)
        (fun x hx => (hstep x).mpr hx)
        (by
          intro x j hj1 hjt hjw
          rw [List.mem_append]
          rcases Nat.lt_or_ge j (t + 1) with hj | hj
          · exact Or.inl (hvc x j hj1 (by omega) hjw)
          · have hjeq : j = t + 1 := by omega
            obtain ⟨m, hm, hmle⟩ := exists_minPosDist j hj1 hjw
            rcases Nat.lt_or_ge m (t + 1) with hmlt | hmge
            · exact Or.inl (hvc x m hm.1 (by omega) hm.2.1)
            · have hmeq : m = t + 1 := by omega
              exact Or.inr ((hstep x).mpr (hmeq ▸ hm)))
        (by
          intro x hx
          rw [List.mem_append] at hx
          rcases hx with hx | hx
          · obtain ⟨j, hj1, hjt, hjw⟩ := hvs x hx
            exact ⟨j, hj1, by omega, hjw⟩
          · exact ⟨t + 1, by omega, le_refl _, ((hstep x).mp hx).2.1⟩)
        (by omega)
        (by
          rw [List.nodup_append]
          exact ⟨hnod, hnextnodup, fun a ha hb => hnextfresh a hb ha⟩)
      obtain ⟨hspec, hclosed, hnodup, hfresh, hne, hsrc⟩ := hrec
      rw [hcons]
      refine ⟨⟨hstep, hspec⟩, ?_, ?_, ?_, ?_, ?_⟩
      · intro hlen
        simp only [List.length_cons] at hlen
        exact hclosed (by omega)
      · rw [List.flatten_cons, List.nodup_append]
        refine ⟨hnextnodup, hnodup, ?_⟩
        intro a ha hb
        exact hfresh a hb (List.mem_append.mpr (Or.inr ha))
      · intro x hx
        rw [List.flatten_cons, List.mem_append] at hx
        rcases hx with hx | hx
        · exact hnextfresh x hx
        · intro hv
          exact hfresh x hx (List.mem_append.mpr (Or.inl hv))
      · intro lvl hlvl
        rcases List.mem_cons.mp hlvl with rfl | hlvl
        · exact fun h => hempty (by simp [h])
        · exact hne lvl hlvl
      · intro x hx
        rw [List.flatten_cons, List.mem_append] at hx
        rcases hx with hx | hx
        · exact hfromIds x hx
        · exact hsrc x hx

theorem minPosDist_pred' {s : Snapshot} {r x d : Nat}
    (h1 : 1 ≤ d) (hd : IsMinPosDist s r x (d + 1)) : ∃ y, IsMinPosDist s r y d := by
  obtain ⟨d', rfl⟩ : ∃ d', d = d' + 1 := ⟨d - 1, by omega⟩
  exact minPosDist_pred hd

/-- Minimal distances are contiguous: once a depth is unoccupied, so is
every larger one. -/
theorem no_minPosDist_above {s : Snapshot} {r t : Nat}
    (h : ∀ x, ¬ IsMinPosDist s r x (t + 1)) :
    ∀ d, t < d → ∀ x, ¬ IsMinPosDist s r x d := by
  intro d
  induction d with
  | zero => omega
  | succ d ihd =>
    intro hlt x hx
    by_cases hdt : d = t
    · exact h x (hdt ▸ hx)
    · obtain ⟨y, hy⟩ := minPosDist_pred' (by omega) hx
      exact ihd (by omega) y hy

theorem attachDepths_sound {s : Snapshot} {r : Nat} :
    ∀ (t : Nat) (L : List (List Nat)), LevelsSpec s r t L →
      ∀ p ∈ attachDepths (t + 1) L, IsMinPosDist s r p.1 p.2 := by
  intro t L
  induction L generalizing t with
  | nil =>
    intro _ p hp
    simp [attachDepths] at hp
  | cons lvl rest ih =>
    intro hspec p hp
    rcases List.mem_append.mp hp with hp | hp
    · obtain ⟨i, hi, rfl⟩ := List.mem_map.mp hp
      exact (hspec.1 i).mp hi
    · exact ih (t + 1) hspec.2 p hp

theorem attachDepths_complete {s : Snapshot} {r : Nat} :
    ∀ (t : Nat) (L : List (List Nat)), LevelsSpec s r t L → LevelsClosed s r t L →
      ∀ x d, t < d → IsMinPosDist s r x d → (x, d) ∈ attachDepths (t + 1) L := by
  intro t L
  induction L generalizing t with
  | nil =>
    intro _ hclosed x d htd hd
    exact absurd hd (no_minPosDist_above hclosed d htd x)
  | cons lvl rest ih =>
    intro hspec hclosed x d htd hd
    by_cases hdt : d = t + 1
    · subst hdt
      exact List.mem_append.mpr (Or.inl (List.mem_map.mpr ⟨x, (hspec.1 x).mpr hd, rfl⟩))
    · exact List.mem_append.mpr
        (Or.inr (ih (t + 1) hspec.2 hclosed x d (by omega) hd))

theorem attachDepths_map_fst : ∀ (n : Nat) (L : List (List Nat)),
    (attachDepths n L).map Prod.fst = L.flatten := by
  intro n L
  induction L generalizing n with
  | nil => rfl
  | cons lvl rest ih =>
    simp [attachDepths, List.map_append, List.map_map, Function.comp_def, ih]

theorem attachDepths_snd_ge : ∀ (n : Nat) (L : List (List Nat)),
    ∀ p ∈ attachDepths n L, n ≤ p.2 := by
  intro n L
  induction L generalizing n with
  | nil =>
    intro p hp
    simp [attachDepths] at hp
  | cons lvl rest ih =>
    intro p hp
    rcases List.mem_append.mp hp with hp | hp
    · obtain ⟨i, _, rfl⟩ := List.mem_map.mp hp
      exact le_refl n
    · exact le_trans (by omega) (ih (n + 1) p hp)

theorem pairwise_of_all {α : Type} {R : α → α → Prop} (h : ∀ a b, R a b) :
    ∀ l : List α, l.Pairwise R := by
  intro l
  induction l with
  | nil => exact List.Pairwise.nil
  | cons a as ih => exact List.Pairwise.cons (fun b _ => h a b) ih

theorem attachDepths_pairwise : ∀ (n : Nat) (L : List (List Nat)),
    (attachDepths n L).Pairwise (fun a b => a.2 ≤ b.2) := by
  intro n L
  induction L generalizing n with
  | nil => exact List.Pairwise.nil
  | cons lvl rest ih =>
    refine List.pairwise_append.mpr ⟨?_, ih (n + 1), ?_⟩
    · exact List.pairwise_map.mpr (pairwise_of_all (fun _ _ => le_refl n) lvl)
    · intro a ha b hb
      obtain ⟨i, _, rfl⟩ := List.mem_map.mp ha
      exact le_trans (by omega) (attachDepths_snd_ge (n + 1) rest b hb)

theorem length_le_flatten_length {α : Type} :
    ∀ L : List (List α), (∀ l ∈ L, l ≠ []) → L.length ≤ L.flatten.length := by
  intro L h
  induction L with
  | nil => simp
  | cons a as ih =>
    simp only [List.flatten_cons, List.length_append, List.length_cons]
    have h1 : a ≠ [] := h a (List.mem_cons_self a as)
    have h2 : 1 ≤ a.length := List.length_pos.mpr h1
    have h3 := ih (fun l hl => h l (List.mem_cons_of_mem a hl))
    omega

/-- The traversal of `transitiveDependents` runs to natural completion:
its levels satisfy the exact-distance characterization and nothing
reachable is left out. -/
theorem transitiveDependents_levels (s : Snapshot) (rootId : Nat) :
    LevelsSpec s rootId 0 (bfsLevels s (s.edges.length + 1) [rootId] []) ∧
      LevelsClosed s rootId 0 (bfsLevels s (s.edges.length + 1) [rootId] []) ∧
      (bfsLevels s (s.edges.length + 1) [rootId] []).flatten.Nodup ∧
      (∀ x ∈ (bfsLevels s (s.edges.length + 1) [rootId] []).flatten,
        x ∈ s.edges.map (fun e => e.fromId)) := by
  have h := bfsLevels_spec s rootId (s.edges.length + 1) 0 [rootId] []
    (by
      intro x hx
      rcases List.mem_singleton.mp hx with rfl
      exact DepWalk.refl _)
    (by
      intro x hx
      exact absurd hx.1 (by omega))
    (by intro x j h1 h2 _; omega)
    (by intro x hx; simp at hx)
    (fun _ => List.mem_singleton.mpr rfl)
    List.nodup_nil
  obtain ⟨hspec, hclosed, hnodup, -, hne, hsrc⟩ := h
  refine ⟨hspec, ?_, hnodup, hsrc⟩
  apply hclosed
  have h1 := length_le_flatten_length _ hne
  have h2 : (bfsLevels s (s.edges.length + 1) [rootId] []).flatten.length ≤
      s.edges.length := by
    calc (bfsLevels s (s.edges.length + 1) [rootId] []).flatten.length
        = (bfsLevels s (s.edges.length + 1) [rootId] []).flatten.toFinset.card :=
          (List.toFinset_card_of_nodup hnodup).symm
      _ ≤ (s.edges.map (fun e => e.fromId)).toFinset.card := by
          apply Finset.card_le_card
          intro a ha
          simp only [List.mem_toFinset] at ha ⊢
          exact hsrc a ha
      _ ≤ (s.edges.map (fun e => e.fromId)).length := List.toFinset_card_le _
      _ = s.edges.length := by simp
  omega

/-- Characterization of the reachability engine: the produced pairs are
exactly the nodes with a positive-length `DEPENDS_ON` walk to the root,
each paired with its minimal walk length. -/
theorem mem_transitiveDependents {s : Snapshot} {rootId : Nat} {p : Nat × Nat} :
    p ∈ transitiveDependents s rootId ↔ IsMinPosDist s rootId p.1 p.2 := by
  obtain ⟨hspec, hclosed, -, -⟩ := transitiveDependents_levels s rootId
  constructor
  · intro hp
    exact attachDepths_sound 0 _ hspec p hp
  · intro hp
    have := attachDepths_complete 0 _ hspec hclosed p.1 p.2 hp.1 hp
    simpa using this

/-- The engine reports each node at most once. -/
theorem transitiveDependents_nodup (s : Snapshot) (rootId : Nat) :
    ((transitiveDependents s rootId).map Prod.fst).Nodup := by
  obtain ⟨-, -, hnodup, -⟩ := transitiveDependents_levels s rootId
  rw [transitiveDependents, attachDepths_map_fst]
  exact hnodup

/-- The engine lists dependents by ascending minimal depth. -/
theorem transitiveDependents_sorted (s : Snapshot) (rootId : Nat) :
    (transitiveDependents s rootId).Pairwise (fun a b => a.2 ≤ b.2) :=
  attachDepths_pairwise 1 _

/-- Every reported node is the source of some edge. -/
theorem transitiveDependents_sources (s : Snapshot) (rootId : Nat) :
    ∀ p ∈ transitiveDependents s rootId, p.1 ∈ s.edges.map (fun e => e.fromId) := by
  obtain ⟨-, -, -, hsrc⟩ := transitiveDependents_levels s rootId
  intro p hp
  apply hsrc
  rw [← attachDepths_map_fst 1]
  exact List.mem_map.mpr ⟨p, hp, rfl⟩

/-! ### Lemmas about the embedded `ORDER BY count DESC` -/

theorem insertByVal_perm {α : Type} (x : α × Nat) :
    ∀ l : List (α × Nat), (insertByVal x l).Perm (x :: l) := by
  intro l
  induction l with
  | nil => exact List.Perm.refl _
  | cons y ys ih =>
    by_cases h : y.2 ≤ x.2
    · simp only [insertByVal, if_pos h]
      exact List.Perm.refl _
    · simp only [insertByVal, if_neg h]
      exact List.Perm.trans (List.Perm.cons y ih) (List.Perm.swap x y ys)

theorem orderByDesc_perm {α : Type} :
    ∀ l : List (α × Nat), (orderByDesc l).Perm l := by
  intro l
  induction l with
  | nil => exact List.Perm.refl _
  | cons x xs ih => exact List.Perm.trans (insertByVal_perm x (orderByDesc xs)) (ih.cons x)

theorem mem_orderByDesc {α : Type} {l : List (α × Nat)} {a : α × Nat} :
    a ∈ orderByDesc l ↔ a ∈ l :=
  (orderByDesc_perm l).mem_iff

theorem insertByVal_pairwise {α : Type} (x : α × Nat) :
    ∀ l : List (α × Nat), l.Pairwise (fun a b => b.2 ≤ a.2) →
      (insertByVal x l).Pairwise (fun a b => b.2 ≤ a.2) := by
  intro l
  induction l with
  | nil =>
    intro _
    simp [insertByVal]
  | cons y ys ih =>
    intro hp
    by_cases h : y.2 ≤ x.2
    · simp only [insertByVal, if_pos h]
      refine List.Pairwise.cons ?_ hp
      intro b hb
      rcases List.mem_cons.mp hb with rfl | hb
      · exact h
      · exact le_trans (List.rel_of_pairwise_cons hp hb) h
    · simp only [insertByVal, if_neg h]
      obtain ⟨hy, hys⟩ := List.pairwise_cons.mp hp
      refine List.Pairwise.cons ?_ (ih hys)
      intro b hb
      have hb' := (insertByVal_perm x ys).mem_iff.mp hb
      rcases List.mem_cons.mp hb' with rfl | hb'
      · omega
      · exact hy b hb'

theorem orderByDesc_pairwise {α : Type} :
    ∀ l : List (α × Nat), (orderByDesc l).Pairwise (fun a b => b.2 ≤ a.2) := by
  intro l
  induction l with
  | nil => exact List.Pairwise.nil
  | cons x xs ih => exact insertByVal_pairwise x (orderByDesc xs) ih

theorem orderByDesc_head_max {α : Type} {l t : List (α × Nat)} {h : α × Nat}
    (heq : orderByDesc l = h :: t) : ∀ a ∈ l, a.2 ≤ h.2 := by
  intro a ha
  have hmem : a ∈ orderByDesc l := (orderByDesc_perm l).mem_iff.mpr ha
  rw [heq] at hmem
  rcases List.mem_cons.mp hmem with rfl | hmem
  · exact le_refl _
  · have hpw := orderByDesc_pairwise l
    rw [heq] at hpw
    exact List.rel_of_pairwise_cons hpw hmem

/-- Stability of the embedded sort: the returned head is the first element
of the input attaining the maximal value. -/
theorem orderByDesc_head_first {α : Type} :
    ∀ (l : List (α × Nat)) (h : α × Nat) (t : List (α × Nat)),
      orderByDesc l = h :: t →
      ∃ pre post, l = pre ++ h :: post ∧ ∀ a ∈ pre, a.2 < h.2 := by
  intro l
  induction l with
  | nil =>
    intro h t heq
    simp [orderByDesc] at heq
  | cons x xs ih =>
    intro h t heq
    simp only [orderByDesc] at heq
    cases hxs : orderByDesc xs with
    | nil =>
      rw [hxs] at heq
      simp only [insertByVal, List.cons.injEq] at heq
      obtain ⟨rfl, -⟩ := heq
      exact ⟨[], xs, rfl, by simp⟩
    | cons y ys =>
      rw [hxs] at heq
      by_cases hc : y.2 ≤ x.2
      · simp only [insertByVal, if_pos hc, List.cons.injEq] at heq
        obtain ⟨rfl, -⟩ := heq
        exact ⟨[], xs, rfl, by simp⟩
      · simp only [insertByVal, if_neg hc, List.cons.injEq] at heq
        obtain ⟨rfl, -⟩ := heq
        obtain ⟨pre, post, hsplit, hpre⟩ := ih y ys hxs
        refine ⟨x :: pre, post, by rw [hsplit]; rfl, ?_⟩
        intro a ha
        rcases List.mem_cons.mp ha with rfl | ha
        · omega
        · exact hpre a ha

/-! ### Lookup and handler inversion lemmas -/

theorem lookupUnit_eq_some {s : Snapshot} {i : Nat} (h : ∃ u ∈ s.units, u.id = i) :
    ∃ u, lookupUnit s i = some u ∧ u ∈ s.units ∧ u.id = i := by
  obtain ⟨u, hu, hid⟩ := h
  have hsome : (s.units.find? (fun v => v.id == i)).isSome :=
    List.find?_isSome.mpr ⟨u, hu, by simp [hid]⟩
  obtain ⟨v, hv⟩ := Option.isSome_iff_exists.mp hsome
  exact ⟨v, hv, List.mem_of_find?_eq_some hv, by simpa using List.find?_some hv⟩

/-- Resolving a pair list against the unit table keeps ids, length and
membership when every id resolves. -/
theorem filterMap_lookup_spec {s : Snapshot} :
    ∀ L : List (Nat × Nat), (∀ p ∈ L, ∃ u ∈ s.units, u.id = p.1) →
      (L.filterMap (fun p => lookupUnit s p.1)).map (fun u => u.id) = L.map Prod.fst ∧
        (L.filterMap (fun p => lookupUnit s p.1)).length = L.length ∧
        ∀ u ∈ L.filterMap (fun p => lookupUnit s p.1), u ∈ s.units := by
  intro L
  induction L with
  | nil => intro _; exact ⟨rfl, rfl, by simp⟩
  | cons p ps ih =>
    intro h
    obtain ⟨u, hu, humem, huid⟩ := lookupUnit_eq_some (h p (List.mem_cons_self p ps))
    obtain ⟨ih1, ih2, ih3⟩ := ih (fun q hq => h q (List.mem_cons_of_mem _ hq))
    refine ⟨?_, ?_, ?_⟩
    · simp [List.filterMap_cons, hu, huid, ih1]
    · simp [List.filterMap_cons, hu, ih2]
    · intro v hv
      rw [List.filterMap_cons, hu] at hv
      rcases List.mem_cons.mp hv with rfl | hv
      · exact humem
      · exact ih3 v hv

/-- Under well-formedness every discovered dependent id names a unit. -/
theorem wf_dependents_resolve {s : Snapshot} (hwf : WFSnapshot s) (rootId : Nat) :
    ∀ p ∈ transitiveDependents s rootId, ∃ u ∈ s.units, u.id = p.1 := by
  intro p hp
  have hsrc := transitiveDependents_sources s rootId p hp
  obtain ⟨e, he, hfid⟩ := List.mem_map.mp hsrc
  obtain ⟨⟨u, hu, huid⟩, -⟩ := hwf.2 e he
  exact ⟨u, hu, by rw [huid, hfid]⟩

/-- Inversion of a successful `GET /root-cause` response. -/
theorem selectRootCause_ok {s : Snapshot} {t locStr : String} {res : RootCauseResult}
    (h : selectRootCause s (some t) (some locStr) = Except.ok res) :
    ∃ rest,
      orderByDesc ((candidates s t (splitComma locStr)).map
          (fun u => (u, dependentCount s u.id))) =
        (res.rootCause, res.affectedServices) :: rest ∧
      res.impactChain = impactChainOf s res.rootCause.id ∧
      res.criticalPath = (impactChainOf s res.rootCause.id).map (fun u => u.name) := by
  simp only [selectRootCause] at h
  by_cases hc : t = "" ∨ locStr = ""
  · rw [if_pos hc] at h
    exact absurd h (by simp)
  · rw [if_neg hc] at h
    cases heq : orderByDesc ((candidates s t (splitComma locStr)).map
        (fun u => (u, dependentCount s u.id))) with
    | nil =>
      rw [heq] at h
      exact absurd h (by simp)
    | cons hd rest =>
      obtain ⟨root, cnt⟩ := hd
      rw [heq] at h
      simp only [Except.ok.injEq] at h
      subst h
      exact ⟨rest, rfl, rfl, rfl⟩

/-- The 404 of `GET /root-cause` occurs exactly on an empty candidate set,
and it carries the requested type and the attempted location list. -/
theorem selectRootCause_notFound_iff {s : Snapshot} {t locStr : String}
    (ht : t ≠ "") (hl : locStr ≠ "") :
    selectRootCause s (some t) (some locStr) =
        Except.error (QueryError.notFound t (splitComma locStr)) ↔
      candidates s t (splitComma locStr) = [] := by
  simp only [selectRootCause]
  rw [if_neg (by simp [ht, hl])]
  cases heq : orderByDesc ((candidates s t (splitComma locStr)).map
      (fun u => (u, dependentCount s u.id))) with
  | nil =>
    have hlen := (orderByDesc_perm ((candidates s t (splitComma locStr)).map
        (fun u => (u, dependentCount s u.id)))).length_eq
    rw [heq] at hlen
    simp only [List.length_nil, List.length_map] at hlen
    simp [List.eq_nil_of_length_eq_zero hlen.symm]
  | cons hd rest =>
    obtain ⟨root, cnt⟩ := hd
    have hne : candidates s t (splitComma locStr) ≠ [] := by
      intro hnil
      rw [hnil] at heq
      simp [orderByDesc] at heq
    simp [hne]

/-- Inversion of a successful `GET /analyze-region` response. -/
theorem analyzeRegion_ok {s : Snapshot} {region : Option String} {locStr : String}
    {res : RegionAnalysisResult}
    (h : analyzeRegion s region (some locStr) = Except.ok res) :
    res.criticalUnits = criticalUnitsOf s (splitComma locStr) ∧
      res.totalUnits = (regionUnits s (splitComma locStr)).length ∧
      (res.criticalUnits = [] → res.vulnerabilities = []) ∧
      ∀ top rest, res.criticalUnits = top :: rest →
        res.vulnerabilities =
          [toString res.criticalUnits.length ++ " critical infrastructure units identified"
          , r"Single point of failure risk in " ++ top.1.name] := by
  simp only [analyzeRegion, Except.ok.injEq] at h
  subst h
  refine ⟨rfl, rfl, ?_, ?_⟩
  · intro hnil
    simp only at hnil ⊢
    rw [hnil]
  · intro top rest hcons
    simp only at hcons ⊢
    rw [hcons]

/-! ### The claims -/

/-- C2: `selectRootCause` fails with the `NotFoundError` — carrying the
requested type and the attempted location list — if and only if no unit has
both the requested type and a location in the list. -/
theorem c2_not_found_iff (s : Snapshot) (t locStr : String)
    (ht : t ≠ "") (hl : locStr ≠ "") :
    selectRootCause s (some t) (some locStr) =
        Except.error (QueryError.notFound t (splitComma locStr)) ↔
      ∀ u ∈ s.units, ¬(u.type = t ∧ u.location ∈ splitComma locStr) := by
  rw [selectRootCause_notFound_iff ht hl]
  unfold candidates
  rw [List.filter_eq_nil_iff]
  constructor
  · intro h u hu hcontra
    have hb := h u hu
    simp only [Bool.and_eq_true, beq_iff_eq, List.elem_iff] at hb
    exact hb ⟨hcontra.1, hcontra.2⟩
  · intro h u hu
    simp only [Bool.and_eq_true, beq_iff_eq, List.elem_iff]
    exact fun hc => h u hu hc

/-- C2 witness: in `exMain` no water unit sits in the east, and the handler
answers with the 404 carrying the type and the location list. -/
theorem c2_witness :
    (((r"water") : String) ≠ "" ∧ ((r"east") : String) ≠ "") ∧
      (selectRootCause exMain (some (r"water")) (some (r"east")) =
          Except.error (QueryError.notFound (r"water") (splitComma (r"east"))) ↔
        ∀ u ∈ exMain.units,
          ¬(u.type = (r"water") ∧ u.location ∈ splitComma (r"east"))) :=
  ⟨⟨by decide, by decide⟩,
    c2_not_found_iff exMain (r"water") (r"east") (by decide) (by decide)⟩

/-- C10: when the candidate set is nonempty but nothing depends on any
candidate, the handler still succeeds, returning one of the candidates,
zero affected services, an empty impact chain and an empty critical path. -/
theorem c10_zero_dependents {s : Snapshot} {t locStr : String}
    (ht : t ≠ "") (hl : locStr ≠ "")
    (hc : candidates s t (splitComma locStr) ≠ [])
    (hz : ∀ c ∈ candidates s t (splitComma locStr),
      transitiveDependents s c.id = []) :
    ∃ res, selectRootCause s (some t) (some locStr) = Except.ok res ∧
      res.rootCause ∈ candidates s t (splitComma locStr) ∧
      res.affectedServices = 0 ∧ res.impactChain = [] ∧ res.criticalPath = [] := by
  cases heq : orderByDesc ((candidates s t (splitComma locStr)).map
      (fun u => (u, dependentCount s u.id))) with
  | nil =>
    exfalso
    have hlen := (orderByDesc_perm ((candidates s t (splitComma locStr)).map
        (fun u => (u, dependentCount s u.id)))).length_eq
    rw [heq] at hlen
    simp only [List.length_nil, List.length_map] at hlen
    exact hc (List.eq_nil_of_length_eq_zero hlen.symm)
  | cons hd rest =>
    obtain ⟨root, cnt⟩ := hd
    have hmem : (root, cnt) ∈ (candidates s t (splitComma locStr)).map
        (fun u => (u, dependentCount s u.id)) :=
      mem_orderByDesc.mp (heq ▸ List.mem_cons_self _ _)
    obtain ⟨u, hu, hpair⟩ := List.mem_map.mp hmem
    simp only [Prod.mk.injEq] at hpair
    obtain ⟨rfl, hcnt⟩ := hpair
    have hcnt0 : cnt = 0 := by
      rw [← hcnt]
      unfold dependentCount
      rw [hz u hu]
      rfl
    have hchain : impactChainOf s u.id = [] := by
      unfold impactChainOf
      rw [hz u hu]
      rfl
    refine ⟨{ rootCause := u
            , impactChain := impactChainOf s u.id
            , affectedServices := cnt
            , criticalPath := (impactChainOf s u.id).map (fun v => v.name) }, ?_, hu, hcnt0,
      hchain, by rw [hchain]; rfl⟩
    simp only [selectRootCause]
    rw [if_neg (by simp [ht, hl]), heq]

/-- C10 witness: both tied power units of `exTie` have no dependents, yet
the query succeeds with an all-empty impact report. -/
theorem c10_witness :
    (((r"power") : String) ≠ "" ∧ ((r"north") : String) ≠ "" ∧
      candidates exTie (r"power") (splitComma (r"north")) ≠ [] ∧
      ∀ c ∈ candidates exTie (r"power") (splitComma (r"north")),
        transitiveDependents exTie c.id = []) ∧
      ∃ res, selectRootCause exTie (some (r"power")) (some (r"north")) = Except.ok res ∧
        res.rootCause ∈ candidates exTie (r"power") (splitComma (r"north")) ∧
        res.affectedServices = 0 ∧ res.impactChain = [] ∧ res.criticalPath = [] :=
  ⟨⟨by decide, by decide, by decide, by decide⟩,
    c10_zero_dependents (by decide) (by decide) (by decide) (by decide)⟩

/-- C1 counterexample: in `exTie` both power candidates in the north tie at
dependent count zero, the smaller unit id is 1, yet the handler returns the
unit with id 2 — the first one in the store's enumeration order — so the
ascending-id tie-break does not hold. -/
theorem c1_counterexample :
    selectRootCause exTie (some (r"power")) (some (r"north")) = Except.ok exTieRes ∧
      exTieRes.rootCause.id = 2 ∧
      exAlpha ∈ candidates exTie (r"power") (splitComma (r"north")) ∧
      exBeta ∈ candidates exTie (r"power") (splitComma (r"north")) ∧
      dependentCount exTie exAlpha.id = dependentCount exTie exBeta.id ∧
      exAlpha.id < exBeta.id :=
  ⟨by rfl, by decide, by decide, by decide, by decide, by decide⟩

/-- C1 amended: the returned root cause is a candidate of maximal transitive
dependent count — indeed the first such candidate in the snapshot's
enumeration order, every earlier candidate having a strictly smaller
count — and `affectedServices` is its count; no ascending-id key breaks
ties. -/
theorem c1_root_cause_max {s : Snapshot} {t locStr : String} {res : RootCauseResult}
    (h : selectRootCause s (some t) (some locStr) = Except.ok res) :
    res.rootCause ∈ candidates s t (splitComma locStr) ∧
      res.affectedServices = dependentCount s res.rootCause.id ∧
      (∀ c ∈ candidates s t (splitComma locStr),
        dependentCount s c.id ≤ dependentCount s res.rootCause.id) ∧
      ∃ pre post, candidates s t (splitComma locStr) = pre ++ res.rootCause :: post ∧
        ∀ c ∈ pre, dependentCount s c.id < dependentCount s res.rootCause.id := by
  obtain ⟨rest, heq, -, -⟩ := selectRootCause_ok h
  have hmem : (res.rootCause, res.affectedServices) ∈
      (candidates s t (splitComma locStr)).map (fun u => (u, dependentCount s u.id)) :=
    mem_orderByDesc.mp (heq ▸ List.mem_cons_self _ _)
  obtain ⟨u, hu, hpair⟩ := List.mem_map.mp hmem
  simp only [Prod.mk.injEq] at hpair
  obtain ⟨rfl, hcnt⟩ := hpair
  refine ⟨hu, hcnt.symm, ?_, ?_⟩
  · intro c hc
    have hle := orderByDesc_head_max heq (c, dependentCount s c.id)
      (List.mem_map_of_mem _ hc)
    rw [hcnt]
    exact hle
  · obtain ⟨pre', post', hsplit, hpre⟩ := orderByDesc_head_first _ _ _ heq
    rw [List.map_eq_append_iff] at hsplit
    obtain ⟨l1, l2, hcand, hmap1, hmap2⟩ := hsplit
    rw [List.map_eq_cons_iff] at hmap2
    obtain ⟨a, l2', rfl, hfa, -⟩ := hmap2
    simp only [Prod.mk.injEq] at hfa
    obtain ⟨rfl, -⟩ := hfa
    refine ⟨l1, l2', hcand, ?_⟩
    intro c hc
    have hmem' : (c, dependentCount s c.id) ∈ pre' := by
      rw [← hmap1]
      exact List.mem_map_of_mem _ hc
    have hlt := hpre _ hmem'
    rw [hcnt]
    exact hlt

/-- C1 witness: applying the amended statement to `exTie`. -/
theorem c1_witness :
    selectRootCause exTie (some (r"power")) (some (r"north")) = Except.ok exTieRes ∧
      (exTieRes.rootCause ∈ candidates exTie (r"power") (splitComma (r"north")) ∧
        exTieRes.affectedServices = dependentCount exTie exTieRes.rootCause.id ∧
        (∀ c ∈ candidates exTie (r"power") (splitComma (r"north")),
          dependentCount exTie c.id ≤ dependentCount exTie exTieRes.rootCause.id) ∧
        ∃ pre post,
          candidates exTie (r"power") (splitComma (r"north")) =
            pre ++ exTieRes.rootCause :: post ∧
          ∀ c ∈ pre, dependentCount exTie c.id <
            dependentCount exTie exTieRes.rootCause.id) :=
  ⟨by rfl, c1_root_cause_max (by rfl)⟩

/-- C4: `affectedServices` is the uncapped number of distinct transitive
dependents of the selected root — the traversal reports each dependent
once — so it bounds the truncated chain length from above and matches it
exactly when the dependents number at most ten. -/
theorem c4_affected_services {s : Snapshot} {t locStr : String} {res : RootCauseResult}
    (hwf : WFSnapshot s) (h : selectRootCause s (some t) (some locStr) = Except.ok res) :
    res.affectedServices = (transitiveDependents s res.rootCause.id).length ∧
      ((transitiveDependents s res.rootCause.id).map Prod.fst).Nodup ∧
      res.impactChain.length ≤ res.affectedServices ∧
      (res.affectedServices = res.impactChain.length ↔
        (transitiveDependents s res.rootCause.id).length ≤ 10) := by
  obtain ⟨rest, heq, hchain, -⟩ := selectRootCause_ok h
  have hmem : (res.rootCause, res.affectedServices) ∈
      (candidates s t (splitComma locStr)).map (fun u => (u, dependentCount s u.id)) :=
    mem_orderByDesc.mp (heq ▸ List.mem_cons_self _ _)
  obtain ⟨u, hu, hpair⟩ := List.mem_map.mp hmem
  simp only [Prod.mk.injEq] at hpair
  obtain ⟨rfl, hcnt⟩ := hpair
  have hresolve : ∀ p ∈ (transitiveDependents s res.rootCause.id).take 10,
      ∃ v ∈ s.units, v.id = p.1 :=
    fun p hp => wf_dependents_resolve hwf _ p (List.mem_of_mem_take hp)
  obtain ⟨-, hlen, -⟩ := filterMap_lookup_spec _ hresolve
  have hchainlen : res.impactChain.length =
      min 10 (transitiveDependents s res.rootCause.id).length := by
    rw [hchain]
    unfold impactChainOf
    rw [hlen, List.length_take]
  refine ⟨hcnt.symm, transitiveDependents_nodup s _, ?_, ?_⟩
  · rw [hchainlen, ← hcnt]
    unfold dependentCount
    omega
  · rw [hchainlen, ← hcnt]
    unfold dependentCount
    omega

/-- C4 witness: `exMain` has three dependents of the plant and a chain of
length three, so the bound is tight there. -/
theorem c4_witness :
    (WFSnapshot exMain ∧
      selectRootCause exMain (some (r"power")) (some (r"north")) = Except.ok exMainRes) ∧
      (exMainRes.affectedServices =
          (transitiveDependents exMain exMainRes.rootCause.id).length ∧
        ((transitiveDependents exMain exMainRes.rootCause.id).map Prod.fst).Nodup ∧
        exMainRes.impactChain.length ≤ exMainRes.affectedServices ∧
        (exMainRes.affectedServices = exMainRes.impactChain.length ↔
          (transitiveDependents exMain exMainRes.rootCause.id).length ≤ 10)) :=
  ⟨⟨by decide, by rfl⟩,
    @c4_affected_services exMain (r"power") (r"north") exMainRes (by decide) (by rfl)⟩

/-- C3: the impact chain is the first ten entries of the dependents listed
by ascending minimal path depth — the listed depths are exactly the minimal
positive walk lengths, every dependent at such a depth is listed, the
sequence is depth-sorted — its units come from the snapshot, and the
critical path is the chain's names in order. -/
theorem c3_impact_chain {s : Snapshot} {t locStr : String} {res : RootCauseResult}
    (hwf : WFSnapshot s) (h : selectRootCause s (some t) (some locStr) = Except.ok res) :
    res.impactChain.map (fun u => u.id) =
        ((transitiveDependents s res.rootCause.id).take 10).map Prod.fst ∧
      (∀ u ∈ res.impactChain, u ∈ s.units) ∧
      res.impactChain.length ≤ 10 ∧
      (∀ p ∈ transitiveDependents s res.rootCause.id,
        IsMinPosDist s res.rootCause.id p.1 p.2) ∧
      (∀ x d, IsMinPosDist s res.rootCause.id x d →
        (x, d) ∈ transitiveDependents s res.rootCause.id) ∧
      (transitiveDependents s res.rootCause.id).Pairwise (fun a b => a.2 ≤ b.2) ∧
      res.criticalPath = res.impactChain.map (fun u => u.name) := by
  obtain ⟨rest, heq, hchain, hcrit⟩ := selectRootCause_ok h
  have hresolve : ∀ p ∈ (transitiveDependents s res.rootCause.id).take 10,
      ∃ v ∈ s.units, v.id = p.1 :=
    fun p hp => wf_dependents_resolve hwf _ p (List.mem_of_mem_take hp)
  obtain ⟨hids, hlen, hmemu⟩ := filterMap_lookup_spec _ hresolve
  refine ⟨?_, ?_, ?_, ?_, ?_, transitiveDependents_sorted s _, ?_⟩
  · rw [hchain]
    unfold impactChainOf
    exact hids
  · intro u hu
    rw [hchain] at hu
    exact hmemu u hu
  · rw [hchain]
    unfold impactChainOf
    rw [hlen]
    exact List.length_take_le _ _
  · intro p hp
    exact mem_transitiveDependents.mp hp
  · intro x d hx
    exact (mem_transitiveDependents (p := (x, d))).mpr hx
  · rw [hcrit, hchain]

/-- C3 witness: the chain of `exMain` lists the telecom unit and the
substation at depth one and the pump at depth two, names in the same
order. -/
theorem c3_witness :
    (WFSnapshot exMain ∧
      selectRootCause exMain (some (r"power")) (some (r"north")) = Except.ok exMainRes) ∧
      (exMainRes.impactChain.map (fun u => u.id) =
          ((transitiveDependents exMain exMainRes.rootCause.id).take 10).map Prod.fst ∧
        (∀ u ∈ exMainRes.impactChain, u ∈ exMain.units) ∧
        exMainRes.impactChain.length ≤ 10 ∧
        (∀ p ∈ transitiveDependents exMain exMainRes.rootCause.id,
          IsMinPosDist exMain exMainRes.rootCause.id p.1 p.2) ∧
        (∀ x d, IsMinPosDist exMain exMainRes.rootCause.id x d →
          (x, d) ∈ transitiveDependents exMain exMainRes.rootCause.id) ∧
        (transitiveDependents exMain exMainRes.rootCause.id).Pairwise
          (fun a b => a.2 ≤ b.2) ∧
        exMainRes.criticalPath = exMainRes.impactChain.map (fun u => u.name)) :=
  ⟨⟨by decide, by rfl⟩,
    @c3_impact_chain exMain (r"power") (r"north") exMainRes (by decide) (by rfl)⟩

/-- C5: on the three-cycle CycA -> CycB -> CycC -> CycA with CycD -> CycA,
the variable-length pattern matches the root CycA itself through the cycle,
so the engine reports CycA among its own transitive dependents, at its
minimal positive cycle distance three, and counts four dependents where the
specified behavior expects three and no root. -/
theorem c5_root_in_own_dependents :
    transitiveDependents exCycle 1 = [(3, 1), (4, 1), (2, 2), (1, 3)] ∧
      dependentCount exCycle 1 = 4 ∧
      (1, 3) ∈ transitiveDependents exCycle 1 ∧
      IsMinPosDist exCycle 1 1 3 :=
  ⟨by rfl, by rfl, by decide, (mem_transitiveDependents (p := (1, 3))).mp (by decide)⟩

/-- C6 counterexample: a one-unit edge-free snapshot gets no ranking entry
at all, and a snapshot with two distinct units both named DupX — with two
and one incoming edges — gets the single merged entry (DupX, 3): the query
neither lists every unit nor pairs counts per unit. -/
theorem c6_counterexample :
    (rankGlobal exIso = [] ∧ exIso.units.length = 1) ∧
      rankGlobal exDup = [((r"DupX"), 3)] ∧
      (exDup.edges.filter (fun e => e.toId == 1)).length = 2 ∧
      (exDup.edges.filter (fun e => e.toId == 2)).length = 1 :=
  ⟨⟨by rfl, by rfl⟩, by rfl, by rfl, by rfl⟩

/-- C6 amended: `rankGlobal` lists one entry per distinct unit name with at
least one incoming `DEPENDS_ON` edge — zero-count names are omitted by the
plain non-optional `MATCH`, and same-named units are merged by the query's
aggregation key `n.name` — pairing the name with the total incoming-edge
count of the units bearing it, sorted descending by count with no cap. -/
theorem c6_rank_global (s : Snapshot) :
    (rankGlobal s).Pairwise (fun a b => b.2 ≤ a.2) ∧
      (∀ p ∈ rankGlobal s,
        0 < p.2 ∧ p.2 = nameIncomingCount s p.1 ∧ ∃ u ∈ s.units, u.name = p.1) ∧
      (∀ u ∈ s.units, 0 < nameIncomingCount s u.name →
        (u.name, nameIncomingCount s u.name) ∈ rankGlobal s) ∧
      ∀ nm k, nameIncomingCount s nm = 0 → (nm, k) ∉ rankGlobal s := by
  refine ⟨orderByDesc_pairwise _, ?_, ?_, ?_⟩
  · intro p hp
    rw [rankGlobal, mem_orderByDesc, List.mem_filterMap] at hp
    obtain ⟨nm, hnm, hsome⟩ := hp
    by_cases hc : 0 < nameIncomingCount s nm
    · rw [if_pos hc] at hsome
      simp only [Option.some.injEq] at hsome
      subst hsome
      refine ⟨hc, rfl, ?_⟩
      have hmem := ((mem_dedupNew nm _ _).mp hnm).1
      obtain ⟨u, hu, hun⟩ := List.mem_map.mp hmem
      exact ⟨u, hu, hun⟩
    · rw [if_neg hc] at hsome
      exact absurd hsome (by simp)
  · intro u hu hpos
    rw [rankGlobal, mem_orderByDesc, List.mem_filterMap]
    refine ⟨u.name, ?_, ?_⟩
    · rw [mem_dedupNew]
      exact ⟨List.mem_map_of_mem _ hu, by simp⟩
    · rw [if_pos hpos]
  · intro nm k hzero hk
    rw [rankGlobal, mem_orderByDesc, List.mem_filterMap] at hk
    obtain ⟨nm', hnm', hsome⟩ := hk
    by_cases hc : 0 < nameIncomingCount s nm'
    · rw [if_pos hc] at hsome
      simp only [Option.some.injEq, Prod.mk.injEq] at hsome
      obtain ⟨rfl, -⟩ := hsome
      rw [hzero] at hc
      exact Nat.lt_irrefl 0 hc
    · rw [if_neg hc] at hsome
      exact absurd hsome (by simp)

/-- C7: the region report keeps only location-matching units of positive
transitive dependent count, descending by count, at most five of them;
`totalUnits` counts every location-matching unit; and the two findings —
the critical-unit count and the top unit as single point of failure —
appear exactly when some critical unit exists. -/
theorem c7_rank_region {s : Snapshot} {region : Option String} {locStr : String}
    {res : RegionAnalysisResult}
    (h : analyzeRegion s region (some locStr) = Except.ok res) :
    (∀ p ∈ res.criticalUnits, p.1 ∈ s.units ∧ p.1.location ∈ splitComma locStr ∧
        0 < p.2 ∧ p.2 = dependentCount s p.1.id) ∧
      res.criticalUnits.Pairwise (fun a b => b.2 ≤ a.2) ∧
      res.criticalUnits.length ≤ 5 ∧
      res.totalUnits = (s.units.filter
        (fun u => (splitComma locStr).contains u.location)).length ∧
      (res.criticalUnits = [] → res.vulnerabilities = []) ∧
      ∀ top rest, res.criticalUnits = top :: rest →
        res.vulnerabilities =
          [toString res.criticalUnits.length ++ " critical infrastructure units identified"
          , r"Single point of failure risk in " ++ top.1.name] := by
  obtain ⟨hcrit, htotal, hv1, hv2⟩ := analyzeRegion_ok h
  refine ⟨?_, ?_, ?_, htotal, hv1, hv2⟩
  · intro p hp
    rw [hcrit] at hp
    unfold criticalUnitsOf at hp
    have hp' := List.mem_of_mem_take hp
    rw [mem_orderByDesc, List.mem_filter] at hp'
    obtain ⟨hpmem, hppos⟩ := hp'
    obtain ⟨u, hu, hpair⟩ := List.mem_map.mp hpmem
    subst hpair
    unfold regionUnits at hu
    rw [List.mem_filter] at hu
    exact ⟨hu.1, List.elem_iff.mp hu.2, by simpa using hppos, rfl⟩
  · rw [hcrit]
    unfold criticalUnitsOf
    exact (orderByDesc_pairwise _).sublist (List.take_sublist _ _)
  · rw [hcrit]
    unfold criticalUnitsOf
    exact List.length_take_le _ _

/-- C7 witness: the north region of `exMain` has three units, two of them
critical, with the plant first and both findings emitted. -/
theorem c7_witness :
    analyzeRegion exMain (some (r"North")) (some (r"north")) = Except.ok exRegionRes ∧
      ((∀ p ∈ exRegionRes.criticalUnits, p.1 ∈ exMain.units ∧
          p.1.location ∈ splitComma (r"north") ∧
          0 < p.2 ∧ p.2 = dependentCount exMain p.1.id) ∧
        exRegionRes.criticalUnits.Pairwise (fun a b => b.2 ≤ a.2) ∧
        exRegionRes.criticalUnits.length ≤ 5 ∧
        exRegionRes.totalUnits = (exMain.units.filter
          (fun u => (splitComma (r"north")).contains u.location)).length ∧
        (exRegionRes.criticalUnits = [] → exRegionRes.vulnerabilities = []) ∧
        ∀ top rest, exRegionRes.criticalUnits = top :: rest →
          exRegionRes.vulnerabilities =
            [toString exRegionRes.criticalUnits.length ++
                " critical infrastructure units identified"
            , r"Single point of failure risk in " ++ top.1.name]) :=
  ⟨by rfl, @c7_rank_region exMain (some (r"North")) (r"north") exRegionRes (by rfl)⟩

/-- C8 counterexample: an empty locations string is not rejected with any
typed empty-location error — `/analyze-region` proceeds and succeeds on it,
and `/root-cause` classifies it as a missing parameter instead. -/
theorem c8_counterexample :
    analyzeRegion exMain (some (r"North")) (some (r"")) = Except.ok exEmptyLocRes ∧
      selectRootCause exMain (some (r"power")) (some (r"")) =
        Except.error QueryError.missingParam :=
  ⟨by rfl, by rfl⟩

/-- C8 amended: `selectRootCause` rejects an empty locations string before
any traversal, but with the generic missing-parameter 400 — never an
`EmptyLocationSetError` — while `rankRegion` performs no such validation:
it treats the empty string as the single empty-string location and the
analysis proceeds with no error of any kind. -/
theorem c8_empty_locations (s : Snapshot) (region : Option String) (t : String) :
    selectRootCause s (some t) (some (r"")) = Except.error QueryError.missingParam ∧
      (∀ e : QueryError, analyzeRegion s region (some (r"")) ≠ Except.error e) ∧
      ∀ res, analyzeRegion s region (some (r"")) = Except.ok res →
        res.criticalUnits = criticalUnitsOf s (splitComma (r"")) ∧
          res.totalUnits = (regionUnits s (splitComma (r""))).length := by
  refine ⟨?_, ?_, ?_⟩
  · simp [selectRootCause]
  · intro e
    simp [analyzeRegion]
  · intro res h
    obtain ⟨h1, h2, -, -⟩ := analyzeRegion_ok h
    exact ⟨h1, h2⟩

/-- C8 witness: the amended statement at `exMain`. -/
theorem c8_witness :
    selectRootCause exMain (some (r"power")) (some (r"")) =
        Except.error QueryError.missingParam ∧
      (∀ e : QueryError, analyzeRegion exMain (some (r"North")) (some (r"")) ≠
        Except.error e) ∧
      ∀ res, analyzeRegion exMain (some (r"North")) (some (r"")) = Except.ok res →
        res.criticalUnits = criticalUnitsOf exMain (splitComma (r"")) ∧
          res.totalUnits = (regionUnits exMain (splitComma (r""))).length :=
  c8_empty_locations exMain (some (r"North")) (r"power")
